import Mathlib

/-!
Verification of the openclaw-persona Memory Lifecycle Engine
(importance scoring, decay computation, consolidation, candidate ranking)
against its natural-language specification.

Numeric model: the TypeScript `number` arithmetic of the engine is embedded
over ℚ where only field arithmetic and comparisons occur (importance scoring,
consolidation, candidate ranking) and over ℝ where `Math.log` occurs
(decay computation).  Timestamps (`Date`) are modelled as milliseconds since
the epoch.  `Date` values that the source reads implicitly via `new Date()`
are made explicit `now` parameters of the embedding; JS `Array.prototype.sort`
(in place, stable since ES2019) is embedded as a stable insertion sort
together with a definition recording the post-call state of the argument
array.
-/

/-! ## Importance scoring (importance.ts) -/

/-- The input record of `calculateImportance` (interface `ImportanceFactors`). -/
structure ImportanceFactors where
  isDecision : Bool
  isPreference : Bool
  isCorrection : Bool
  isTodo : Bool
  mentionedByUser : Bool
  repeatedMention : ℕ
  recentlyAccessed : Bool
  uniqueness : ℚ
  specificity : ℚ
deriving DecidableEq

/-- The running `score` of `calculateImportance` before the final clamp:
base 0.5, then each conditional `score += w` contributes `if b then w else 0`,
in the order the source applies them. -/
def rawImportance (factors : ImportanceFactors) : ℚ :=
  0.5
  + (if factors.isDecision then 0.2 else 0)
  + (if factors.isPreference then 0.15 else 0)
  + (if factors.isCorrection then 0.25 else 0)
  + (if factors.isTodo then 0.1 else 0)
  + (if factors.mentionedByUser then 0.15 else 0)
  + min 0.2 ((factors.repeatedMention : ℚ) * 0.05)
  + (if factors.recentlyAccessed then 0.05 else 0)
  + factors.uniqueness * 0.15
  + factors.specificity * 0.1

/-- `calculateImportance` of importance.ts:
`return Math.min(1, Math.max(0, score))`. -/
def calculateImportance (factors : ImportanceFactors) : ℚ :=
  min 1 (max 0 (rawImportance factors))

/-- `classifyImportance` of importance.ts. -/
def classifyImportance (score : ℚ) : String :=
  if score ≥ 0.85 then "critical"
  else if score ≥ 0.65 then "high"
  else if score ≥ 0.4 then "medium"
  else "low"

/-- The `TYPE_IMPORTANCE` table of importance.ts. -/
def TYPE_IMPORTANCE : List (String × ℚ) :=
  [("correction", 0.9),
   ("decision", 0.8),
   ("preference", 0.7),
   ("fact", 0.6),
   ("todo", 0.6),
   ("observation", 0.4),
   ("transient", 0.2)]

/-- Modelled from the spec: `src/` contains the `TYPE_IMPORTANCE` table
(importance.ts) but not the lookup that applies it when explicit factors are
unavailable; spec §7 ("UnknownType") states that a memory `type` absent from
the table falls back to a neutral `observation`-equivalent default rather
than failing. -/
def typeImportance (t : String) : ℚ :=
  match TYPE_IMPORTANCE.find? (fun p => decide (p.1 = t)) with
  | some p => p.2
  | none => 0.4

/-- The importance formula exactly as claim C2 words it: the clamp to `[0,1]`
of 0.5 plus 0.25 if `isCorrection`, 0.20 if `isDecision`, 0.15 if
`isPreference`, 0.15 if `mentionedByUser`, 0.10 if `isTodo`, 0.05 if
`recentlyAccessed`, plus `min(0.20, repeatedMention*0.05)`, plus
`uniqueness*0.15` plus `specificity*0.10`. -/
def importanceSpecFormula (factors : ImportanceFactors) : ℚ :=
  min 1 (max 0
    (0.5
     + (if factors.isCorrection then 0.25 else 0)
     + (if factors.isDecision then 0.2 else 0)
     + (if factors.isPreference then 0.15 else 0)
     + (if factors.mentionedByUser then 0.15 else 0)
     + (if factors.isTodo then 0.1 else 0)
     + (if factors.recentlyAccessed then 0.05 else 0)
     + min 0.2 ((factors.repeatedMention : ℚ) * 0.05)
     + factors.uniqueness * 0.15
     + factors.specificity * 0.1))

/-! ## Memory records and decay (forgetting.ts) -/

/-- Interface `MemoryRecord` of forgetting.ts.  `Date` fields are modelled as
real-valued milliseconds since the epoch; `decayScore?` is optional. -/
structure MemoryRecord where
  id : String
  text : String
  type : String
  importance : ℝ
  createdAt : ℝ
  lastAccessedAt : ℝ
  accessCount : ℕ
  decayScore : Option ℝ

/-- The `decay` value of `calculateDecay` before the final clamp, with the
source's intermediate `let` bindings inlined:
`ageFactor*0.2 + accessRecency*0.3 + accessFrequency*0.2 + importanceFactor*0.3`
where `ageFactor = log(ageDays+1)/10`, `accessRecency = log(lastAccessDays+1)/5`,
`accessFrequency = 1/(accessCount+1)`, `importanceFactor = 1 - importance`,
and `ageDays`/`lastAccessDays` divide the millisecond differences by
`1000*60*60*24`. -/
noncomputable def rawDecay (memory : MemoryRecord) (now : ℝ) : ℝ :=
  Real.log ((now - memory.createdAt) / (1000 * 60 * 60 * 24) + 1) / 10 * 0.2
  + Real.log ((now - memory.lastAccessedAt) / (1000 * 60 * 60 * 24) + 1) / 5 * 0.3
  + 1 / ((memory.accessCount : ℝ) + 1) * 0.2
  + (1 - memory.importance) * 0.3

/-- `calculateDecay` of forgetting.ts:
`return Math.min(1, Math.max(0, decay))`.  The source's `now` parameter
defaults to `new Date()`; the embedding always takes it explicitly. -/
noncomputable def calculateDecay (memory : MemoryRecord) (now : ℝ) : ℝ :=
  min 1 (max 0 (rawDecay memory now))

/-- The decay formula exactly as claim C1 words it:
`clamp01(0.2*(ln(ageDays+1)/10) + 0.3*(ln(lastAccessDays+1)/5)
 + 0.2*(1/(accessCount+1)) + 0.3*(1-importance))` with `ageDays` and
`lastAccessDays` derived from `now` minus `createdAt` / `lastAccessedAt`
in days (one day = 86400000 ms). -/
noncomputable def decaySpecFormula (memory : MemoryRecord) (now : ℝ) : ℝ :=
  min 1 (max 0
    (0.2 * (Real.log ((now - memory.createdAt) / 86400000 + 1) / 10)
     + 0.3 * (Real.log ((now - memory.lastAccessedAt) / 86400000 + 1) / 5)
     + 0.2 * (1 / ((memory.accessCount : ℝ) + 1))
     + 0.3 * (1 - memory.importance)))

/-! ## Stable descending sort

JS `Array.prototype.sort` with the comparators of forgetting.ts /
auto-formation.ts (`(a,b) => keyOf(b) - keyOf(a)`) is a stable sort putting
larger keys first.  It is embedded as a stable insertion sort: an element is
inserted in front of the first position whose key is `≤` its own, so elements
with equal keys keep their original relative order. -/

/-- Insert `x` into `l` in front of the first element whose key is `≤ key x`. -/
def insertByDesc {α β : Type} [LinearOrder β] (key : α → β) (x : α) :
    List α → List α
  | [] => [x]
  | y :: ys => if key y ≤ key x then x :: y :: ys else y :: insertByDesc key x ys

/-- Stable sort by `key`, descending. -/
def sortByDesc {α β : Type} [LinearOrder β] (key : α → β) : List α → List α
  | [] => []
  | x :: xs => insertByDesc key x (sortByDesc key xs)

/-! ## Forgetting operations (forgetting.ts) -/

/-- One step of the `map` in `getDecayedMemories`:
`({ ...m, decayScore: calculateDecay(m) })`.  `now` is the ambient clock
value that the source's parameterless `calculateDecay(m)` call reads. -/
noncomputable def withDecayScore (m : MemoryRecord) (now : ℝ) : MemoryRecord :=
  { m with decayScore := some (calculateDecay m now) }

/-- The non-null read `m.decayScore!` used by the filter and the sort
comparator of `getDecayedMemories` (within the pipeline the field is always
set). -/
noncomputable def decayScoreOf (m : MemoryRecord) : ℝ :=
  m.decayScore.getD 0

/-- `getDecayedMemories` of forgetting.ts:
`memories.map(m => ({...m, decayScore: calculateDecay(m)}))
         .filter(m => m.decayScore! > threshold)
         .sort((a, b) => b.decayScore! - a.decayScore!)`.
The source reads the clock implicitly (its `calculateDecay(m)` call defaults
`now` to `new Date()`); the embedding takes that clock value as `now`. -/
noncomputable def getDecayedMemories (memories : List MemoryRecord)
    (threshold now : ℝ) : List MemoryRecord :=
  sortByDesc decayScoreOf
    ((memories.map (fun m => withDecayScore m now)).filter
      (fun m => decide (threshold < decayScoreOf m)))

/-- `getDecayedMemories` with its default argument `threshold = 0.7`. -/
noncomputable def getDecayedMemoriesDefault (memories : List MemoryRecord)
    (now : ℝ) : List MemoryRecord :=
  getDecayedMemories memories 0.7 now

/-- `strengthenMemory` of forgetting.ts.  `now` is the ambient clock value
the source reads via `lastAccessedAt: new Date()`. -/
noncomputable def strengthenMemory (memory : MemoryRecord) (now : ℝ) :
    MemoryRecord :=
  { memory with
    importance := min 1 (memory.importance + 0.1)
    lastAccessedAt := now
    accessCount := memory.accessCount + 1 }

/-- The state of `strengthenMemory`'s argument after the call: the source
builds its result with an object spread (`{ ...memory, ... }`), leaving the
argument record untouched. -/
def strengthenMemoryInputAfter (memory : MemoryRecord) (now : ℝ) :
    MemoryRecord :=
  memory

/-! ## Consolidation (forgetting.ts) -/

/-- `[...new Set(list)]`, iterated with an explicit seen-accumulator:
JS `Set` iteration preserves insertion order and keeps first occurrences. -/
def dedupAux (seen : List String) : List String → List String
  | [] => []
  | x :: xs => if x ∈ seen then dedupAux seen xs else x :: dedupAux (x :: seen) xs

/-- De-duplication keeping first occurrences, as `[...new Set(toStrengthen)]`. -/
def dedupFirst (l : List String) : List String :=
  dedupAux [] l

/-- The `for (const [id1, id2, similarity] of similarityPairs)` loop of
`consolidateMemories`: pairs with `similarity > 0.9` push `[id1, id2]` onto
`toMerge`, pairs with `similarity > 0.7` (hence `≤ 0.9`, else-branch) push
`id1` then `id2` onto `toStrengthen`, all in input order. -/
def consolidateLoop :
    List (String × String × ℚ) → List (String × String) × List String
  | [] => ([], [])
  | p :: rest =>
    let r := consolidateLoop rest
    if 0.9 < p.2.2 then ((p.1, p.2.1) :: r.1, r.2)
    else if 0.7 < p.2.2 then (r.1, p.1 :: p.2.1 :: r.2)
    else r

/-- `consolidateMemories` of forgetting.ts; the `memories` parameter is
accepted and unused, as in the source.  Returns
`{ toMerge, toStrengthen: [...new Set(toStrengthen)] }`. -/
def consolidateMemories (memories : List MemoryRecord)
    (similarityPairs : List (String × String × ℚ)) :
    List (String × String) × List String :=
  ((consolidateLoop similarityPairs).1, dedupFirst (consolidateLoop similarityPairs).2)

/-! ## Candidate ranking (auto-formation.ts) -/

/-- Interface `MemoryCandidate` of auto-formation.ts (the `type` union is
modelled as a string; `timestamp` as milliseconds). -/
structure MemoryCandidate where
  text : String
  type : String
  importance : ℚ
  source : String
  timestamp : ℚ
deriving DecidableEq

/-- `rankCandidates` of auto-formation.ts:
`return candidates.sort((a, b) => b.importance - a.importance)`. -/
def rankCandidates (candidates : List MemoryCandidate) : List MemoryCandidate :=
  sortByDesc MemoryCandidate.importance candidates

/-- The state of `rankCandidates`'s argument after the call:
`Array.prototype.sort` reorders the receiver in place and returns it, so
after `rankCandidates(candidates)` the caller's array holds the sorted
order, not the original one. -/
def rankCandidatesInputAfter (candidates : List MemoryCandidate) :
    List MemoryCandidate :=
  rankCandidates candidates

/-! ## Helper lemmas -/

theorem decayScoreOf_withDecayScore (m : MemoryRecord) (now : ℝ) :
    decayScoreOf (withDecayScore m now) = calculateDecay m now :=
  rfl

theorem clamp01_eq_self {x : ℝ} (h0 : 0 ≤ x) (h1 : x ≤ 1) :
    min 1 (max 0 x) = x := by
  rw [max_eq_right h0, min_eq_right h1]

theorem insertByDesc_perm {α β : Type} [LinearOrder β] (key : α → β) (x : α)
    (l : List α) : (insertByDesc key x l).Perm (x :: l) := by
  induction l with
  | nil => exact List.Perm.refl _
  | cons y ys ih =>
    rw [insertByDesc]
    by_cases hle : key y ≤ key x
    · rw [if_pos hle]
    · rw [if_neg hle]
      exact (ih.cons y).trans (List.Perm.swap x y ys)

theorem sortByDesc_perm {α β : Type} [LinearOrder β] (key : α → β)
    (l : List α) : (sortByDesc key l).Perm l := by
  induction l with
  | nil => exact List.Perm.refl _
  | cons x xs ih =>
    rw [sortByDesc]
    exact (insertByDesc_perm key x _).trans (ih.cons x)

theorem insertByDesc_pairwise {α β : Type} [LinearOrder β] (key : α → β)
    (x : α) (l : List α) (h : l.Pairwise (fun a b => key b ≤ key a)) :
    (insertByDesc key x l).Pairwise (fun a b => key b ≤ key a) := by
  induction l with
  | nil => simp [insertByDesc]
  | cons y ys ih =>
    rcases List.pairwise_cons.1 h with ⟨hy, hys⟩
    rw [insertByDesc]
    by_cases hle : key y ≤ key x
    · rw [if_pos hle]
      refine List.pairwise_cons.2 ⟨?_, h⟩
      intro b hb
      rcases List.mem_cons.1 hb with rfl | hb
      · exact hle
      · exact (hy b hb).trans hle
    · rw [if_neg hle]
      refine List.pairwise_cons.2 ⟨?_, ih hys⟩
      intro b hb
      rcases List.mem_cons.1 ((insertByDesc_perm key x ys).mem_iff.1 hb) with rfl | hb
      · exact le_of_lt (not_le.1 hle)
      · exact hy b hb

theorem sortByDesc_pairwise {α β : Type} [LinearOrder β] (key : α → β)
    (l : List α) :
    (sortByDesc key l).Pairwise (fun a b => key b ≤ key a) := by
  induction l with
  | nil => simp [sortByDesc]
  | cons x xs ih =>
    rw [sortByDesc]
    exact insertByDesc_pairwise key x _ ih

theorem insertByDesc_filter_key {α β : Type} [LinearOrder β] (key : α → β)
    (v : β) (x : α) (l : List α) :
    (insertByDesc key x l).filter (fun a => decide (key a = v)) =
      if key x = v then x :: l.filter (fun a => decide (key a = v))
      else l.filter (fun a => decide (key a = v)) := by
  induction l with
  | nil =>
    by_cases hx : key x = v <;> simp [insertByDesc, List.filter_cons, hx]
  | cons y ys ih =>
    rw [insertByDesc]
    by_cases hle : key y ≤ key x
    · rw [if_pos hle]
      by_cases hx : key x = v <;> simp [List.filter_cons, hx]
    · rw [if_neg hle]
      by_cases hy : key y = v
      · have hx : ¬ key x = v := fun hxv => hle (le_of_eq (hy.trans hxv.symm))
        simp [List.filter_cons, hy, hx, ih]
      · by_cases hx : key x = v <;> simp [List.filter_cons, hy, hx, ih]

theorem sortByDesc_filter_key {α β : Type} [LinearOrder β] (key : α → β)
    (v : β) (l : List α) :
    (sortByDesc key l).filter (fun a => decide (key a = v)) =
      l.filter (fun a => decide (key a = v)) := by
  induction l with
  | nil => rfl
  | cons x xs ih =>
    rw [sortByDesc, insertByDesc_filter_key]
    by_cases hx : key x = v <;> simp [List.filter_cons, hx, ih]

theorem dedupAux_mem (a : String) :
    ∀ (l seen : List String), a ∈ dedupAux seen l ↔ a ∈ l ∧ a ∉ seen
  | [], seen => by simp [dedupAux]
  | x :: xs, seen => by
    by_cases hx : x ∈ seen
    · rw [dedupAux, if_pos hx, dedupAux_mem a xs seen]
      constructor
      · rintro ⟨h1, h2⟩
        exact ⟨List.mem_cons_of_mem x h1, h2⟩
      · rintro ⟨h1, h2⟩
        rcases List.mem_cons.1 h1 with rfl | h1
        · exact absurd hx h2
        · exact ⟨h1, h2⟩
    · rw [dedupAux, if_neg hx]
      constructor
      · intro h
        rcases List.mem_cons.1 h with rfl | h
        · exact ⟨List.mem_cons_self a xs, hx⟩
        · rcases (dedupAux_mem a xs (x :: seen)).1 h with ⟨h1, h2⟩
          exact ⟨List.mem_cons_of_mem x h1,
            fun hs => h2 (List.mem_cons_of_mem x hs)⟩
      · rintro ⟨h1, h2⟩
        rcases List.mem_cons.1 h1 with rfl | h1
        · exact List.mem_cons_self a _
        · by_cases hax : a = x
          · subst hax
            exact List.mem_cons_self a _
          · exact List.mem_cons_of_mem x ((dedupAux_mem a xs (x :: seen)).2
              ⟨h1, fun hs => (List.mem_cons.1 hs).elim hax h2⟩)

theorem dedupAux_nodup : ∀ (l seen : List String), (dedupAux seen l).Nodup
  | [], seen => by simp [dedupAux]
  | x :: xs, seen => by
    rw [dedupAux]
    by_cases hx : x ∈ seen
    · rw [if_pos hx]
      exact dedupAux_nodup xs seen
    · rw [if_neg hx]
      refine List.nodup_cons.2 ⟨fun hmem => ?_, dedupAux_nodup xs (x :: seen)⟩
      exact ((dedupAux_mem x xs (x :: seen)).1 hmem).2 (List.mem_cons_self x seen)

theorem dedupFirst_mem (a : String) (l : List String) :
    a ∈ dedupFirst l ↔ a ∈ l := by
  rw [dedupFirst, dedupAux_mem]
  simp

theorem dedupFirst_nodup (l : List String) : (dedupFirst l).Nodup :=
  dedupAux_nodup l []

theorem consolidateLoop_fst (pairs : List (String × String × ℚ)) :
    (consolidateLoop pairs).1 =
      (pairs.filter (fun p => decide ((0.9:ℚ) < p.2.2))).map
        (fun p => (p.1, p.2.1)) := by
  induction pairs with
  | nil => rfl
  | cons p rest ih =>
    rw [consolidateLoop]
    by_cases h9 : (0.9:ℚ) < p.2.2
    · simp only [if_pos h9, List.filter_cons, decide_eq_true h9, List.map_cons]
      exact congrArg _ ih
    · by_cases h7 : (0.7:ℚ) < p.2.2 <;>
        simp [h9, h7, List.filter_cons, ih]

theorem consolidateLoop_snd_mem (pairs : List (String × String × ℚ))
    (i : String) :
    i ∈ (consolidateLoop pairs).2 ↔
      ∃ p ∈ pairs, 0.7 < p.2.2 ∧ p.2.2 ≤ 0.9 ∧ (i = p.1 ∨ i = p.2.1) := by
  induction pairs with
  | nil => simp [consolidateLoop]
  | cons p rest ih =>
    rw [consolidateLoop]
    by_cases h9 : (0.9:ℚ) < p.2.2
    · simp only [if_pos h9]
      rw [ih]
      constructor
      · rintro ⟨q, hq, hprops⟩
        exact ⟨q, List.mem_cons_of_mem p hq, hprops⟩
      · rintro ⟨q, hq, h1, h2, h3⟩
        rcases List.mem_cons.1 hq with rfl | hq
        · exact absurd h9 (not_lt.2 h2)
        · exact ⟨q, hq, h1, h2, h3⟩
    · by_cases h7 : (0.7:ℚ) < p.2.2
      · simp only [if_neg h9, if_pos h7, List.mem_cons]
        constructor
        · rintro (rfl | rfl | hmem)
          · exact ⟨p, Or.inl rfl, h7, not_lt.1 h9, Or.inl rfl⟩
          · exact ⟨p, Or.inl rfl, h7, not_lt.1 h9, Or.inr rfl⟩
          · rcases ih.1 hmem with ⟨q, hq, hprops⟩
            exact ⟨q, Or.inr hq, hprops⟩
        · rintro ⟨q, hq, h1, h2, h3⟩
          rcases hq with rfl | hq
          · rcases h3 with rfl | rfl
            · exact Or.inl rfl
            · exact Or.inr (Or.inl rfl)
          · exact Or.inr (Or.inr (ih.2 ⟨q, hq, h1, h2, h3⟩))
      · simp only [if_neg h9, if_neg h7]
        rw [ih]
        constructor
        · rintro ⟨q, hq, hprops⟩
          exact ⟨q, List.mem_cons_of_mem p hq, hprops⟩
        · rintro ⟨q, hq, h1, h2, h3⟩
          rcases List.mem_cons.1 hq with rfl | hq
          · exact absurd h1 h7
          · exact ⟨q, hq, h1, h2, h3⟩

/-! ## Claims -/

/-- Claim C1: for every record with `importance ∈ [0,1]` and every `now` at or
after `createdAt` and `lastAccessedAt`, `calculateDecay` equals the weighted
clamped formula of the claim, and the result lies in `[0,1]`. -/
theorem calculateDecay_matches_spec (m : MemoryRecord) (now : ℝ)
    (hi0 : 0 ≤ m.importance) (hi1 : m.importance ≤ 1)
    (hc : m.createdAt ≤ now) (hl : m.lastAccessedAt ≤ now) :
    calculateDecay m now = decaySpecFormula m now ∧
    0 ≤ calculateDecay m now ∧ calculateDecay m now ≤ 1 := by
  refine ⟨?_, le_min (by norm_num) (le_max_left 0 _), min_le_left 1 _⟩
  unfold calculateDecay decaySpecFormula rawDecay
  norm_num
  ring_nf

/-- Witness for C1 at a concrete record one day old. -/
theorem calculateDecay_matches_spec_witness :
    calculateDecay ⟨"a", "t", "fact", 1/2, 0, 0, 0, none⟩ 86400000 =
      decaySpecFormula ⟨"a", "t", "fact", 1/2, 0, 0, 0, none⟩ 86400000 ∧
    0 ≤ calculateDecay ⟨"a", "t", "fact", 1/2, 0, 0, 0, none⟩ 86400000 ∧
    calculateDecay ⟨"a", "t", "fact", 1/2, 0, 0, 0, none⟩ 86400000 ≤ 1 :=
  calculateDecay_matches_spec _ _ (by norm_num) (by norm_num) (by norm_num) (by norm_num)

/-- Claim C2: for every factors record with `uniqueness, specificity ∈ [0,1]`
(and `repeatedMention ≥ 0`, automatic for ℕ), `calculateImportance factors`
equals the clamp to `[0,1]` of the additive model with the weights listed in
the claim, and in particular lies in `[0,1]`. -/
theorem calculateImportance_matches_spec (f : ImportanceFactors)
    (hu0 : 0 ≤ f.uniqueness) (hu1 : f.uniqueness ≤ 1)
    (hs0 : 0 ≤ f.specificity) (hs1 : f.specificity ≤ 1) :
    calculateImportance f = importanceSpecFormula f ∧
    0 ≤ calculateImportance f ∧ calculateImportance f ≤ 1 := by
  refine ⟨?_, le_min (by norm_num) (le_max_left 0 _), min_le_left 1 _⟩
  unfold calculateImportance importanceSpecFormula rawImportance
  congr 2
  ring

/-- Witness for C2 at a concrete factors record. -/
theorem calculateImportance_matches_spec_witness :
    calculateImportance ⟨true, false, true, false, true, 2, false, 1/2, 1/2⟩ =
      importanceSpecFormula ⟨true, false, true, false, true, 2, false, 1/2, 1/2⟩ ∧
    0 ≤ calculateImportance ⟨true, false, true, false, true, 2, false, 1/2, 1/2⟩ ∧
    calculateImportance ⟨true, false, true, false, true, 2, false, 1/2, 1/2⟩ ≤ 1 :=
  calculateImportance_matches_spec _ (by norm_num) (by norm_num) (by norm_num) (by norm_num)

/-- Counterexample to claim C5: called with `uniqueness = 2`, outside the
declared domain `[0,1]`, `calculateImportance` does not fail the call: it
returns the ordinary score `4/5`, computed from the out-of-range value as
given (had the engine clamped the input to 1 the result would have been
`13/20`; had it failed there would be no result at all). -/
theorem calculateImportance_accepts_out_of_range :
    calculateImportance ⟨false, false, false, false, false, 0, false, 2, 0⟩ = 4/5 ∧
    (4 : ℚ)/5 ≠ 13/20 := by
  constructor
  · norm_num [calculateImportance, rawImportance]
  · norm_num

/-- Amended claim C5: the engine never fails a call; every function is total
on all inputs, out-of-domain values flow through the formulas unvalidated and
unclamped, and only the function's own output is clamped to `[0,1]` (stated
for `calculateImportance` and `calculateDecay` with no domain restriction
whatsoever on the inputs). -/
theorem engine_total_output_clamped (f : ImportanceFactors)
    (m : MemoryRecord) (now : ℝ) :
    0 ≤ calculateImportance f ∧ calculateImportance f ≤ 1 ∧
    0 ≤ calculateDecay m now ∧ calculateDecay m now ≤ 1 :=
  ⟨le_min (by norm_num) (le_max_left 0 _), min_le_left 1 _,
   le_min (by norm_num) (le_max_left 0 _), min_le_left 1 _⟩

/-- Claim C9: a memory type absent from the default-importance table falls
back to the neutral value 0.4, which is exactly the table's `observation`
entry, rather than failing or producing no value. -/
theorem typeImportance_unknown_fallback (t : String)
    (h : ∀ p ∈ TYPE_IMPORTANCE, p.1 ≠ t) :
    typeImportance t = 0.4 ∧ typeImportance t = typeImportance "observation" := by
  have hnone : TYPE_IMPORTANCE.find? (fun p => decide (p.1 = t)) = none := by
    rw [List.find?_eq_none]
    intro p hp
    simp [h p hp]
  have ht : typeImportance t = 0.4 := by
    unfold typeImportance
    rw [hnone]
  refine ⟨ht, ?_⟩
  rw [ht]
  simp [typeImportance, TYPE_IMPORTANCE, List.find?]

/-- Witness for C9 at the concrete unknown type `"banana"`. -/
theorem typeImportance_unknown_fallback_witness :
    typeImportance "banana" = 0.4 ∧
    typeImportance "banana" = typeImportance "observation" :=
  typeImportance_unknown_fallback "banana" (by decide)

/-- Claim C10: for in-domain factors every adjustment to the base score 0.5
is non-negative, so `calculateImportance factors ≥ 0.5`; the lower clamp to 0
is never binding, and `classifyImportance` of the result is never `"low"`. -/
theorem calculateImportance_ge_half (f : ImportanceFactors)
    (hu0 : 0 ≤ f.uniqueness) (hu1 : f.uniqueness ≤ 1)
    (hs0 : 0 ≤ f.specificity) (hs1 : f.specificity ≤ 1) :
    1/2 ≤ calculateImportance f ∧
    max 0 (rawImportance f) = rawImportance f ∧
    classifyImportance (calculateImportance f) ≠ "low" := by
  have h1 : (0:ℚ) ≤ if f.isDecision then 0.2 else 0 := by split <;> norm_num
  have h2 : (0:ℚ) ≤ if f.isPreference then 0.15 else 0 := by split <;> norm_num
  have h3 : (0:ℚ) ≤ if f.isCorrection then 0.25 else 0 := by split <;> norm_num
  have h4 : (0:ℚ) ≤ if f.isTodo then 0.1 else 0 := by split <;> norm_num
  have h5 : (0:ℚ) ≤ if f.mentionedByUser then 0.15 else 0 := by split <;> norm_num
  have h6 : (0:ℚ) ≤ if f.recentlyAccessed then 0.05 else 0 := by split <;> norm_num
  have h7 : (0:ℚ) ≤ min 0.2 ((f.repeatedMention : ℚ) * 0.05) :=
    le_min (by norm_num) (by positivity)
  have h8 : (0:ℚ) ≤ f.uniqueness * 0.15 := mul_nonneg hu0 (by norm_num)
  have h9 : (0:ℚ) ≤ f.specificity * 0.1 := mul_nonneg hs0 (by norm_num)
  have hraw : 1/2 ≤ rawImportance f := by
    unfold rawImportance
    linarith
  have hmax : max 0 (rawImportance f) = rawImportance f :=
    max_eq_right (by linarith)
  have hhalf : 1/2 ≤ calculateImportance f := by
    unfold calculateImportance
    rw [hmax]
    exact le_min (by norm_num) hraw
  refine ⟨hhalf, hmax, ?_⟩
  unfold classifyImportance
  split_ifs with hc hh hm
  · decide
  · decide
  · decide
  · exfalso
    have : calculateImportance f ≥ 0.4 := by linarith
    exact hm this

/-- Witness for C10 at a concrete factors record. -/
theorem calculateImportance_ge_half_witness :
    1/2 ≤ calculateImportance ⟨false, false, false, false, false, 0, false, 0, 0⟩ ∧
    max 0 (rawImportance ⟨false, false, false, false, false, 0, false, 0, 0⟩) =
      rawImportance ⟨false, false, false, false, false, 0, false, 0, 0⟩ ∧
    classifyImportance
      (calculateImportance ⟨false, false, false, false, false, 0, false, 0, 0⟩) ≠ "low" :=
  calculateImportance_ge_half _ (by norm_num) (by norm_num) (by norm_num) (by norm_num)

/-- Claim C8: holding all other fields fixed, `calculateDecay` is
non-decreasing as `lastAccessDays` grows (i.e. as `lastAccessedAt` moves
earlier, both staying at or before `now`), and non-increasing as `importance`
grows. -/
theorem calculateDecay_monotone (m : MemoryRecord) (now la1 la2 i1 i2 : ℝ) :
    (la2 ≤ la1 → la1 ≤ now →
      calculateDecay { m with lastAccessedAt := la1 } now ≤
        calculateDecay { m with lastAccessedAt := la2 } now) ∧
    (i1 ≤ i2 →
      calculateDecay { m with importance := i2 } now ≤
        calculateDecay { m with importance := i1 } now) := by
  constructor
  · intro h21 h1n
    apply min_le_min le_rfl
    apply max_le_max le_rfl
    unfold rawDecay
    simp only
    have hpos : (0:ℝ) < (now - la1) / (1000 * 60 * 60 * 24) + 1 := by
      have h0 : (0:ℝ) ≤ (now - la1) / (1000 * 60 * 60 * 24) :=
        div_nonneg (by linarith) (by norm_num)
      linarith
    have hle : (now - la1) / (1000 * 60 * 60 * 24) + 1 ≤
        (now - la2) / (1000 * 60 * 60 * 24) + 1 := by
      gcongr
    have hlog := Real.log_le_log hpos hle
    linarith
  · intro h12
    apply min_le_min le_rfl
    apply max_le_max le_rfl
    unfold rawDecay
    simp only
    linarith

/-- Witness for C8 at concrete records one day apart. -/
theorem calculateDecay_monotone_witness :
    calculateDecay ⟨"a", "t", "fact", 0, 0, 86400000, 0, none⟩ 86400000 ≤
      calculateDecay ⟨"a", "t", "fact", 0, 0, 0, 0, none⟩ 86400000 ∧
    calculateDecay ⟨"a", "t", "fact", 1, 0, 0, 0, none⟩ 86400000 ≤
      calculateDecay ⟨"a", "t", "fact", 0, 0, 0, 0, none⟩ 86400000 :=
  ⟨(calculateDecay_monotone ⟨"a", "t", "fact", 0, 0, 86400000, 0, none⟩
      86400000 86400000 0 0 0).1 (by norm_num) (by norm_num),
   (calculateDecay_monotone ⟨"a", "t", "fact", 0, 0, 0, 0, none⟩
      86400000 0 0 0 1).2 (by norm_num)⟩

/-- Claim C3: for every record list, threshold, and clock value,
`getDecayedMemories` returns exactly the score-annotated records whose
computed decay exceeds the threshold (a permutation of the filtered input in
its order), sorted by decay score descending, with equal scores keeping the
original input order (stability, stated as equality of the equal-score
sublists), and the default threshold is 0.7. -/
theorem getDecayedMemories_select_sort_stable (memories : List MemoryRecord)
    (threshold now : ℝ) :
    (getDecayedMemories memories threshold now).Perm
      ((memories.filter (fun m => decide (threshold < calculateDecay m now))).map
        (fun m => withDecayScore m now)) ∧
    (getDecayedMemories memories threshold now).Pairwise
      (fun a b => decayScoreOf b ≤ decayScoreOf a) ∧
    (∀ v : ℝ,
      (getDecayedMemories memories threshold now).filter
          (fun r => decide (decayScoreOf r = v)) =
        ((memories.filter (fun m => decide (threshold < calculateDecay m now))).map
          (fun m => withDecayScore m now)).filter
            (fun r => decide (decayScoreOf r = v))) ∧
    getDecayedMemoriesDefault memories now = getDecayedMemories memories 0.7 now := by
  have hmapfilter :
      (memories.map (fun m => withDecayScore m now)).filter
        (fun m => decide (threshold < decayScoreOf m)) =
      (memories.filter (fun m => decide (threshold < calculateDecay m now))).map
        (fun m => withDecayScore m now) := by
    induction memories with
    | nil => rfl
    | cons m ms ih =>
      rw [List.map_cons, List.filter_cons, List.filter_cons,
        decayScoreOf_withDecayScore]
      by_cases hm : threshold < calculateDecay m now
      · rw [if_pos (by simpa using hm), if_pos (by simpa using hm),
          List.map_cons, ih]
      · rw [if_neg (by simpa using hm), if_neg (by simpa using hm), ih]
  refine ⟨?_, ?_, ?_, rfl⟩
  · unfold getDecayedMemories
    rw [hmapfilter]
    exact sortByDesc_perm _ _
  · unfold getDecayedMemories
    exact sortByDesc_pairwise _ _
  · intro v
    unfold getDecayedMemories
    rw [sortByDesc_filter_key, hmapfilter]

/-- Claim C4: `consolidateMemories` classifies each similarity pair
independently: `toMerge` is exactly the pairs with similarity `> 0.9` in
input order; `toStrengthen` contains an id exactly when some pair with
`0.7 < similarity ≤ 0.9` mentions it (so ids of merge-only pairs are not
added), and it is de-duplicated. -/
theorem consolidateMemories_classification (memories : List MemoryRecord)
    (pairs : List (String × String × ℚ)) :
    (consolidateMemories memories pairs).1 =
      (pairs.filter (fun p => decide ((0.9:ℚ) < p.2.2))).map
        (fun p => (p.1, p.2.1)) ∧
    (consolidateMemories memories pairs).2.Nodup ∧
    (∀ i : String,
      i ∈ (consolidateMemories memories pairs).2 ↔
        ∃ p ∈ pairs, 0.7 < p.2.2 ∧ p.2.2 ≤ 0.9 ∧ (i = p.1 ∨ i = p.2.1)) := by
  refine ⟨consolidateLoop_fst pairs, dedupFirst_nodup _, fun i => ?_⟩
  rw [consolidateMemories]
  simp only
  rw [dedupFirst_mem, consolidateLoop_snd_mem]

/-- Counterexample to claim C6: `rankCandidates` does not leave its input
candidate sequence in its original order — JS `Array.prototype.sort`
reorders the argument array in place, so after ranking candidates with
importances `0.3, 0.9, 0.5` the caller's array is no longer in that order. -/
theorem rankCandidates_mutates_input :
    rankCandidatesInputAfter
        [⟨"a", "fact", 3/10, "s", 0⟩, ⟨"b", "fact", 9/10, "s", 0⟩,
         ⟨"c", "fact", 1/2, "s", 0⟩] ≠
      [⟨"a", "fact", 3/10, "s", 0⟩, ⟨"b", "fact", 9/10, "s", 0⟩,
       ⟨"c", "fact", 1/2, "s", 0⟩] := by
  have hsorted :
      rankCandidatesInputAfter
        [⟨"a", "fact", 3/10, "s", 0⟩, ⟨"b", "fact", 9/10, "s", 0⟩,
         ⟨"c", "fact", 1/2, "s", 0⟩] =
      [⟨"b", "fact", 9/10, "s", 0⟩, ⟨"c", "fact", 1/2, "s", 0⟩,
       ⟨"a", "fact", 3/10, "s", 0⟩] := by
    norm_num [rankCandidatesInputAfter, rankCandidates, sortByDesc, insertByDesc]
  rw [hsorted]
  simp

/-- Amended claim C6: `strengthenMemory` returns a new record value and
leaves its argument unchanged, but `rankCandidates` sorts its input array in
place: after the call the caller's array holds the returned
importance-descending order (a permutation of the original), not the
original order. -/
theorem rankCandidates_inplace_strengthen_pure (cs : List MemoryCandidate) :
    rankCandidatesInputAfter cs = rankCandidates cs ∧
    (rankCandidates cs).Perm cs ∧
    (rankCandidates cs).Pairwise (fun a b => b.importance ≤ a.importance) ∧
    (∀ (m : MemoryRecord) (now : ℝ), strengthenMemoryInputAfter m now = m) :=
  ⟨rfl, sortByDesc_perm _ _, sortByDesc_pairwise _ _, fun _ _ => rfl⟩

/-- Counterexample to claim C7: `strengthenMemory` is not deterministic
across invocation times — it stamps the ambient clock (`new Date()`) into
`lastAccessedAt`, so the same record strengthened at time 0 and one day
later yields different results. -/
theorem strengthenMemory_clock_dependent :
    strengthenMemory ⟨"a", "t", "fact", 0, 0, 0, 0, none⟩ 0 ≠
      strengthenMemory ⟨"a", "t", "fact", 0, 0, 0, 0, none⟩ 86400000 := by
  intro h
  have h2 : (0:ℝ) = 86400000 := congrArg MemoryRecord.lastAccessedAt h
  norm_num at h2

/-- Amended claim C7: only `calculateDecay` exposes the current time as a
parameter (and even there it defaults to the ambient clock).
`strengthenMemory` reads the ambient clock internally, so equal inputs at
different invocation times always give different outputs; `getDecayedMemories`
invokes `calculateDecay` at the ambient current time, so its result also
depends on when it runs (exhibited on a one-record list at threshold 1/2,
evaluated at creation time and seven days later). -/
theorem engine_reads_ambient_clock :
    (∀ (m : MemoryRecord) (t1 t2 : ℝ), t1 ≠ t2 →
      strengthenMemory m t1 ≠ strengthenMemory m t2) ∧
    getDecayedMemories [⟨"a", "t", "fact", 0, 0, 0, 0, none⟩] (1/2) 0 ≠
      getDecayedMemories [⟨"a", "t", "fact", 0, 0, 0, 0, none⟩] (1/2) 604800000 := by
  constructor
  · intro m t1 t2 hne h
    exact hne (congrArg MemoryRecord.lastAccessedAt h)
  · have hL : calculateDecay ⟨"a", "t", "fact", 0, 0, 0, 0, none⟩ 0 = 1/2 := by
      have hraw : rawDecay ⟨"a", "t", "fact", 0, 0, 0, 0, none⟩ 0 = 1/2 := by
        unfold rawDecay
        norm_num [Real.log_one]
      unfold calculateDecay
      rw [hraw]
      exact clamp01_eq_self (by norm_num) (by norm_num)
    have hraw8 : rawDecay ⟨"a", "t", "fact", 0, 0, 0, 0, none⟩ 604800000 =
        Real.log 8 / 10 * 0.2 + Real.log 8 / 5 * 0.3 + 1/2 := by
      unfold rawDecay
      norm_num
      ring_nf
    have hlogpos : 0 < Real.log 8 := Real.log_pos (by norm_num)
    have hloglt : Real.log 8 < 2.1 := by
      have h8 : (8:ℝ) = 2 ^ 3 := by norm_num
      rw [h8, Real.log_pow]
      have hd9 := Real.log_two_lt_d9
      push_cast
      linarith
    have h0R : 0 ≤ rawDecay ⟨"a", "t", "fact", 0, 0, 0, 0, none⟩ 604800000 := by
      rw [hraw8]
      linarith
    have h1R : rawDecay ⟨"a", "t", "fact", 0, 0, 0, 0, none⟩ 604800000 ≤ 1 := by
      rw [hraw8]
      linarith
    have hR : calculateDecay ⟨"a", "t", "fact", 0, 0, 0, 0, none⟩ 604800000 =
        rawDecay ⟨"a", "t", "fact", 0, 0, 0, 0, none⟩ 604800000 := by
      unfold calculateDecay
      exact clamp01_eq_self h0R h1R
    have hgtR : (1:ℝ)/2 <
        calculateDecay ⟨"a", "t", "fact", 0, 0, 0, 0, none⟩ 604800000 := by
      rw [hR, hraw8]
      linarith
    have hLeft : getDecayedMemories [⟨"a", "t", "fact", 0, 0, 0, 0, none⟩]
        (1/2) 0 = [] := by
      unfold getDecayedMemories
      rw [List.map_cons, List.map_nil, List.filter_cons,
        decayScoreOf_withDecayScore, hL]
      norm_num
      rfl
    have hRight : getDecayedMemories [⟨"a", "t", "fact", 0, 0, 0, 0, none⟩]
        (1/2) 604800000 =
        [withDecayScore ⟨"a", "t", "fact", 0, 0, 0, 0, none⟩ 604800000] := by
      unfold getDecayedMemories
      rw [List.map_cons, List.map_nil, List.filter_cons,
        decayScoreOf_withDecayScore,
        if_pos (by simpa using hgtR), List.filter_nil]
      rfl
    rw [hLeft, hRight]
    simp

/-- Witness for the amended C7 at a concrete record and two distinct times. -/
theorem engine_reads_ambient_clock_witness :
    strengthenMemory ⟨"a", "t", "fact", 0, 0, 0, 0, none⟩ 0 ≠
      strengthenMemory ⟨"a", "t", "fact", 0, 0, 0, 0, none⟩ 1 :=
  engine_reads_ambient_clock.1 _ 0 1 (by norm_num)
